import Mathlib

/-!
Shallow embedding of the admission-and-authentication core of the
kerhael/accounting repository: the per-client token-bucket rate limiter
(pkg/middleware/rate_limiter.go, backed by golang.org/x/time/rate), the
JWT token service and auth middleware (internal/auth), the login handler
(internal/handler/v1/auth_handler.go), and the password hasher boundary
(pkg/security). Time is modelled by rationals (seconds); machine floats
of the Go library are idealised as exact rational arithmetic.
-/

namespace Accounting

/-! ## Token bucket (golang.org/x/time/rate.Limiter, as used by rate_limiter.go)

The Go limiter stores a rate `limit` (tokens per second), an integer
`burst`, a current token count and the time of the last update. `advance`
computes the refilled token count: elapsed time since the last update
(clamped to be nonnegative) times the rate, added to the stored tokens and
capped at `burst`. `Allow` consumes one token when at least one is
available. A limiter fresh from `rate.NewLimiter` behaves at its first use
as a full bucket (`tokens = burst`), which is how we seed it. -/

structure Limiter where
  limit : ℚ
  burst : ℕ
  tokens : ℚ
  last : ℚ
deriving DecidableEq, Repr

def Limiter.advance (l : Limiter) (now : ℚ) : ℚ :=
  min (l.burst : ℚ) (l.tokens + (now - min l.last now) * l.limit)

def Limiter.allow (l : Limiter) (now : ℚ) : Bool × Limiter :=
  let tk := l.advance now
  if 1 ≤ tk then (true, { l with tokens := tk - 1, last := now })
  else (false, { l with tokens := tk, last := now })

/-- Effective state of `rate.NewLimiter(r, burst)` at first use: a full bucket. -/
def newLimiter (r : ℚ) (burst : ℕ) (now : ℚ) : Limiter :=
  ⟨r, burst, (burst : ℚ), now⟩

/-- Admission count of a sequence of requests at the given times against one limiter. -/
def Limiter.runCount (l : Limiter) : List ℚ → ℕ × Limiter
  | [] => (0, l)
  | t :: ts =>
    let step := l.allow t
    let rest := step.2.runCount ts
    ((if step.1 then 1 else 0) + rest.1, rest.2)

/-! ## Client registry (pkg/middleware/rate_limiter.go) -/

structure Client where
  limiter : Limiter
  lastSeen : ℚ
deriving DecidableEq, Repr

structure RateLimiter where
  clients : List (String × Client)
  r : ℚ
  burst : ℕ
deriving DecidableEq, Repr

def newRateLimiter (r : ℚ) (burst : ℕ) : RateLimiter :=
  ⟨[], r, burst⟩

/-- First-match lookup in the registry, mirroring the Go map keyed by ip. -/
def lookupClient : List (String × Client) → String → Option Client
  | [], _ => none
  | (k, c) :: rest, ip => if k = ip then some c else lookupClient rest ip

/-- Update the first entry with the given key in place, mirroring mutation
through the `*client` pointer stored in the Go map. -/
def updateClientAt : List (String × Client) → String → (Client → Client) → List (String × Client)
  | [], _, _ => []
  | (k, c) :: rest, ip, f =>
    if k = ip then (k, f c) :: rest else (k, c) :: updateClientAt rest ip f

/-- `getLimiter`: locate the bucket for `ip`, or lazily create it seeded full;
refresh `lastSeen` either way. Returns the bucket and the updated registry. -/
def RateLimiter.getLimiter (rl : RateLimiter) (ip : String) (now : ℚ) : Limiter × RateLimiter :=
  match lookupClient rl.clients ip with
  | none =>
    let l := newLimiter rl.r rl.burst now
    (l, { rl with clients := (ip, ⟨l, now⟩) :: rl.clients })
  | some c =>
    (c.limiter, { rl with clients := updateClientAt rl.clients ip (fun c0 => { c0 with lastSeen := now }) })

/-- One admission check for `ip`: `getLimiter` followed by `limiter.Allow()`,
with the mutated limiter written back through the registry entry. -/
def RateLimiter.allowOn (rl : RateLimiter) (ip : String) (now : ℚ) : Bool × RateLimiter :=
  let g := rl.getLimiter ip now
  let a := g.1.allow now
  (a.1, { g.2 with clients := updateClientAt g.2.clients ip (fun c0 => { c0 with limiter := a.2 }) })

/-- Invariant of reachable registry states: a nonnegative rate, and every
bucket holds between 0 and `burst` tokens and carries the shared
configuration of the limiter. -/
def RateLimiter.Inv (rl : RateLimiter) : Prop :=
  0 ≤ rl.r ∧ ∀ p ∈ rl.clients,
    0 ≤ p.2.limiter.tokens ∧ p.2.limiter.tokens ≤ (rl.burst : ℚ)
      ∧ p.2.limiter.burst = rl.burst ∧ p.2.limiter.limit = rl.r

/-- Idle threshold of the cleanup sweep: 3 minutes, in seconds. -/
def idleThreshold : ℚ := 180

/-- Sleep interval of the cleanup goroutine: one minute, in seconds. -/
def cleanupInterval : ℚ := 60

/-- One pass of the cleanup goroutine body: delete every entry whose
`lastSeen` lies more than `idleThreshold` in the past. -/
def RateLimiter.cleanup (rl : RateLimiter) (now : ℚ) : RateLimiter :=
  { rl with clients := rl.clients.filter (fun p => !(decide (now - p.2.lastSeen > idleThreshold))) }

/-! ## HTTP boundary of the limiter -/

/-- Body written by utils.WriteJSONError: a JSON object with one `message` field. -/
structure ErrorResponse where
  message : String
deriving DecidableEq, Repr

inductive MwResult where
  | reject (status : ℕ) (body : ErrorResponse)
  | pass
deriving DecidableEq, Repr

/-! net.SplitHostPort from the Go standard library, used by
`RateLimitMiddleware` to derive the client identity from `r.RemoteAddr`.
All error cases collapse to `none`; the Go function returns empty host and
port strings alongside the error. -/

def firstIdx (l : List Char) (c : Char) : Option ℕ :=
  l.findIdx? (fun x => x = c)

def lastIdx (l : List Char) (c : Char) : Option ℕ :=
  match l.reverse.findIdx? (fun x => x = c) with
  | none => none
  | some j => some (l.length - 1 - j)

def splitHostPort (hostport : String) : Option (String × String) :=
  let s := hostport.data
  match lastIdx s ':' with
  | none => none
  | some i =>
    match s with
    | [] => none
    | c0 :: _ =>
      if c0 = '[' then
        match firstIdx s ']' with
        | none => none
        | some e =>
          if e + 1 = s.length then none
          else if e + 1 = i then
            if (firstIdx (s.drop 1) '[').isSome then none
            else if (firstIdx (s.drop (e + 1)) ']').isSome then none
            else some (⟨(s.drop 1).take (e - 1)⟩, ⟨s.drop (i + 1)⟩)
          else none
      else
        let host := s.take i
        if (firstIdx host ':').isSome then none
        else if (firstIdx s '[').isSome then none
        else if (firstIdx s ']').isSome then none
        else some (⟨host⟩, ⟨s.drop (i + 1)⟩)

/-- `ip, _, _ := net.SplitHostPort(r.RemoteAddr)` with the error ignored:
the host part on success, the empty string on failure. -/
def clientIP (remoteAddr : String) : String :=
  match splitHostPort remoteAddr with
  | some hp => hp.1
  | none => ""

/-- `RateLimitMiddleware`: key the registry by `clientIP r.RemoteAddr`; on a
denied admission write 429 with body message "too many requests", otherwise
pass the request to the next handler. -/
def RateLimiter.middlewareStep (rl : RateLimiter) (remoteAddr : String) (now : ℚ) : MwResult × RateLimiter :=
  let a := rl.allowOn (clientIP remoteAddr) now
  if a.1 then (MwResult.pass, a.2)
  else (MwResult.reject 429 ⟨"too many requests"⟩, a.2)

/-- Run a sequence of requests (remote address, arrival time) through the
middleware, collecting the per-request results. -/
def RateLimiter.runMw (rl : RateLimiter) : List (String × ℚ) → List MwResult × RateLimiter
  | [] => ([], rl)
  | (addr, t) :: rest =>
    let s := rl.middlewareStep addr t
    let r2 := s.2.runMw rest
    (s.1 :: r2.1, r2.2)

def countPass (l : List MwResult) : ℕ :=
  l.countP (fun x => decide (x = MwResult.pass))

/-! ## Token service (internal/auth: JWTService, GenerateJWT, ValidateJWT)

Claims carry the `user_id` and the `exp` unix timestamp (CustomClaims).
A token string is idealised as either a well-formed HS256-encoded token
carrying its claims and the key it was signed with, or an arbitrary
malformed string (the empty string included). The idealisation captures
the MAC contract: verification under a key succeeds exactly on tokens
signed with that same key, and the jwt/v5 validator additionally requires
the current time to lie strictly before `exp`. -/

structure JWTClaims where
  userID : ℤ
  exp : ℤ
deriving DecidableEq, Repr

inductive TokenStr where
  | encoded (claims : JWTClaims) (sigKey : String)
  | garbled (raw : String)
deriving DecidableEq, Repr

/-- `ValidateJWT("")`: the empty input is a malformed token. -/
def emptyToken : TokenStr := TokenStr.garbled ""

structure JWTService where
  key : String
deriving DecidableEq, Repr

def newJWTService (secret : String) : JWTService := ⟨secret⟩

/-- `GenerateJWT`: claims are the subject id and `exp = now + 24h`, signed
with the service key (HS256). -/
def JWTService.generateJWT (s : JWTService) (userID : ℤ) (now : ℤ) : TokenStr :=
  TokenStr.encoded ⟨userID, now + 24 * 3600⟩ s.key

/-- `ValidateJWT`: parse and check the signature against the service key and
`exp` against the current time; any failure is reported uniformly as `none`. -/
def JWTService.validateJWT (s : JWTService) (tok : TokenStr) (now : ℤ) : Option JWTClaims :=
  match tok with
  | TokenStr.encoded c k => if k = s.key ∧ now < c.exp then some c else none
  | TokenStr.garbled _ => none

/-! ## Auth gate (internal/auth/middleware.go: AuthMiddleware, GetUserIDFromContext)

The request-scoped context value under `userIDKey` is modelled as an
`Option ℤ`. The token verifier is passed in as a function, instantiated by
`fun t => s.validateJWT t now` for the JWTService of the process. The
header is a plain string; `r.Header.Get` returns the empty string when the
header is absent. -/

inductive AuthOutcome where
  | reject (status : ℕ) (body : ErrorResponse)
  | proceed (ctx : Option ℤ)
deriving DecidableEq, Repr

/-- `context.WithValue(r.Context(), userIDKey, claims.UserID)`. -/
def withUserID (_ctx : Option ℤ) (userID : ℤ) : Option ℤ := some userID

/-- `GetUserIDFromContext`: the type assertion yields the stored id with
`true`, or the zero value with `false` when nothing is stored. -/
def getUserIDFromContext : Option ℤ → ℤ × Bool
  | some v => (v, true)
  | none => (0, false)

/-- strings.HasPrefix(authHeader, "Bearer "): the leading seven characters
are "Bearer " (the prefix is ASCII, so byte and character prefixes
coincide). -/
def hasBearer (s : String) : Bool :=
  decide (s.data.take 7 = "Bearer ".data)

/-- `AuthMiddleware` body for one request. In the success branch the Go code
calls `strings.TrimPrefix(authHeader, "Bearer ")`, which under the already
checked `strings.HasPrefix` guard equals dropping the 7 characters of
"Bearer ". -/
def authMiddleware (validate : String → Option JWTClaims) (authHeader : String) : AuthOutcome :=
  if authHeader = "" then AuthOutcome.reject 401 ⟨"missing token"⟩
  else if hasBearer authHeader then
    match validate (authHeader.drop 7) with
    | none => AuthOutcome.reject 401 ⟨"invalid token"⟩
    | some claims => AuthOutcome.proceed (withUserID none claims.userID)
  else AuthOutcome.reject 401 ⟨"invalid token format"⟩

/-! ## Credential hasher boundary (pkg/security: HashPassword, CheckPassword) -/

/-- Modelled from the spec: the bcrypt-backed implementation of
`security.HashPassword` and `security.CheckPassword` is not among the
provided sources (only its tests in the security package and its callers
appear). Per the spec, `Hash` embeds a freshly generated random salt in its
output, and `Verify` recomputes with the embedded salt and compares. The
hash output is idealised as the pair of embedded salt and an injective
digest of (plaintext, salt); the freshness of the salt is made explicit by
passing the salt as an argument. -/
structure HashString where
  salt : ℕ
  digest : String × ℕ
deriving DecidableEq, Repr

/-- Modelled from the spec: `security.HashPassword` with the random salt explicit. -/
def hashPassword (plaintext : String) (salt : ℕ) : HashString :=
  ⟨salt, (plaintext, salt)⟩

/-- Modelled from the spec: `security.CheckPassword` recomputes the digest
with the embedded salt and compares; `true` means match. -/
def checkPassword (plaintext : String) (h : HashString) : Bool :=
  decide (h.digest = (plaintext, h.salt))

/-! ## Login handler (internal/handler/v1/auth_handler.go) -/

structure User where
  id : ℤ
  passwordHash : HashString
deriving DecidableEq, Repr

structure LoginRequest where
  email : String
  password : String
deriving DecidableEq, Repr

inductive LoginResult where
  | fail (status : ℕ) (body : ErrorResponse)
  | ok (token : TokenStr)
deriving DecidableEq, Repr

/-- `AuthHandler.Login` for one request. The decoded body is `none` when
JSON decoding fails (the Go handler then answers 400 with the decoder error
text, passed here as `decodeErr`). User lookup (`userService.FindByEmail`)
is a function argument; `none` models its error return. -/
def loginHandler (findByEmail : String → Option User) (jwt : JWTService) (now : ℤ)
    (decodeErr : String) (req : Option LoginRequest) : LoginResult :=
  match req with
  | none => LoginResult.fail 400 ⟨decodeErr⟩
  | some r =>
    if r.email = "" then LoginResult.fail 400 ⟨"email is required"⟩
    else if r.password = "" then LoginResult.fail 400 ⟨"password is required"⟩
    else
      match findByEmail r.email with
      | none => LoginResult.fail 401 ⟨"invalid credentials"⟩
      | some user =>
        if checkPassword r.password user.passwordHash then
          LoginResult.ok (jwt.generateJWT user.id now)
        else LoginResult.fail 401 ⟨"invalid credentials"⟩

/-! ## Lemmas on the token bucket step -/

theorem Limiter.advance_nonneg (l : Limiter) (now : ℚ) (h0 : 0 ≤ l.tokens) (hr : 0 ≤ l.limit) :
    0 ≤ l.advance now := by
  unfold Limiter.advance
  have h1 : min l.last now ≤ now := min_le_right _ _
  have h2 : 0 ≤ (now - min l.last now) * l.limit := mul_nonneg (by linarith) hr
  exact le_min (by positivity) (by linarith)

theorem Limiter.advance_le_burst (l : Limiter) (now : ℚ) : l.advance now ≤ (l.burst : ℚ) :=
  min_le_left _ _

theorem Limiter.advance_le (l : Limiter) (now : ℚ) (h : l.last ≤ now) :
    l.advance now ≤ l.tokens + (now - l.last) * l.limit := by
  unfold Limiter.advance
  rw [min_eq_left h]
  exact min_le_right _ _

theorem Limiter.allow_snd_tokens (l : Limiter) (now : ℚ) :
    (l.allow now).2.tokens = l.advance now - (if (l.allow now).1 then 1 else 0) := by
  unfold Limiter.allow
  by_cases h : 1 ≤ l.advance now <;> simp [h]

theorem Limiter.allow_snd_last (l : Limiter) (now : ℚ) : (l.allow now).2.last = now := by
  unfold Limiter.allow
  by_cases h : 1 ≤ l.advance now <;> simp [h]

theorem Limiter.allow_snd_limit (l : Limiter) (now : ℚ) : (l.allow now).2.limit = l.limit := by
  unfold Limiter.allow
  by_cases h : 1 ≤ l.advance now <;> simp [h]

theorem Limiter.allow_snd_burst (l : Limiter) (now : ℚ) : (l.allow now).2.burst = l.burst := by
  unfold Limiter.allow
  by_cases h : 1 ≤ l.advance now <;> simp [h]

theorem Limiter.allow_fst_iff (l : Limiter) (now : ℚ) :
    (l.allow now).1 = true ↔ 1 ≤ l.advance now := by
  unfold Limiter.allow
  by_cases h : 1 ≤ l.advance now <;> simp [h]

theorem Limiter.allow_tokens_nonneg (l : Limiter) (now : ℚ) (h0 : 0 ≤ l.tokens)
    (hr : 0 ≤ l.limit) : 0 ≤ (l.allow now).2.tokens := by
  rw [Limiter.allow_snd_tokens]
  have hadv := l.advance_nonneg now h0 hr
  by_cases h : (l.allow now).1
  · have h1 : 1 ≤ l.advance now := (l.allow_fst_iff now).mp h
    simp [h]; linarith
  · simp [h]; linarith

theorem Limiter.allow_tokens_le_burst (l : Limiter) (now : ℚ) :
    (l.allow now).2.tokens ≤ (l.burst : ℚ) := by
  rw [Limiter.allow_snd_tokens]
  have hadv := l.advance_le_burst now
  by_cases h : (l.allow now).1 <;> simp [h] <;> linarith

theorem Limiter.allow_count_bound (l : Limiter) (now : ℚ)
    (h : l.last ≤ now) :
    (if (l.allow now).1 then (1 : ℚ) else 0) + (l.allow now).2.tokens
      ≤ l.tokens + (now - l.last) * l.limit := by
  rw [Limiter.allow_snd_tokens]
  have hadv := l.advance_le now h
  by_cases hb : (l.allow now).1 <;> simp [hb] <;> linarith

theorem Limiter.runCount_tokens_nonneg (ts : List ℚ) (l : Limiter) (h0 : 0 ≤ l.tokens)
    (hr : 0 ≤ l.limit) : 0 ≤ (l.runCount ts).2.tokens := by
  induction ts generalizing l with
  | nil => simpa [Limiter.runCount] using h0
  | cons t ts ih =>
    simp only [Limiter.runCount]
    exact ih (l.allow t).2 (l.allow_tokens_nonneg t h0 hr)
      (by rw [Limiter.allow_snd_limit]; exact hr)

theorem Limiter.runCount_bound (ts : List ℚ) (l : Limiter) (hi : ℚ) (hr : 0 ≤ l.limit)
    (hchain : List.Chain' (· ≤ ·) (l.last :: ts)) (hhi : ∀ t ∈ ts, t ≤ hi)
    (hlast : l.last ≤ hi) :
    ((l.runCount ts).1 : ℚ) + (l.runCount ts).2.tokens
      ≤ l.tokens + (hi - l.last) * l.limit := by
  induction ts generalizing l with
  | nil =>
    simp only [Limiter.runCount, Nat.cast_zero, zero_add]
    nlinarith [mul_nonneg (sub_nonneg.mpr hlast) hr]
  | cons t ts ih =>
    obtain ⟨h1, h2⟩ := List.chain'_cons.mp hchain
    have hthi : t ≤ hi := hhi t (List.mem_cons_self t ts)
    have hlim : (l.allow t).2.limit = l.limit := l.allow_snd_limit t
    have hlastt : (l.allow t).2.last = t := l.allow_snd_last t
    have hstep : (if (l.allow t).1 then (1 : ℚ) else 0) + (l.allow t).2.tokens
        ≤ l.tokens + (t - l.last) * l.limit := l.allow_count_bound t h1
    have hih := ih (l.allow t).2 (by rw [hlim]; exact hr)
      (by rw [hlastt]; exact h2)
    rw [hlim, hlastt] at hih
    replace hih := hih (fun x hx => hhi x (List.mem_cons_of_mem _ hx)) hthi
    simp only [Limiter.runCount]
    by_cases hb : (l.allow t).1
    · simp only [hb, if_true] at hstep ⊢
      push_cast
      linarith
    · simp only [hb, if_false, Bool.false_eq_true] at hstep ⊢
      push_cast
      linarith

/-! ## Lemmas on the client registry -/

theorem lookupClient_mem (cs : List (String × Client)) (ip : String) (c : Client)
    (h : lookupClient cs ip = some c) : (ip, c) ∈ cs := by
  induction cs with
  | nil => simp [lookupClient] at h
  | cons p rest ih =>
    obtain ⟨k, c0⟩ := p
    by_cases hk : k = ip
    · subst hk
      have h' : c0 = c := by simpa [lookupClient] using h
      subst h'
      exact List.mem_cons_self _ _
    · have h' : lookupClient rest ip = some c := by simpa [lookupClient, hk] using h
      exact List.mem_cons_of_mem _ (ih h')

theorem lookupClient_updateClientAt_self (cs : List (String × Client)) (ip : String)
    (f : Client → Client) (c : Client) (h : lookupClient cs ip = some c) :
    lookupClient (updateClientAt cs ip f) ip = some (f c) := by
  induction cs with
  | nil => simp [lookupClient] at h
  | cons p rest ih =>
    obtain ⟨k, c0⟩ := p
    by_cases hk : k = ip
    · subst hk
      have h' : c0 = c := by simpa [lookupClient] using h
      subst h'
      simp [updateClientAt, lookupClient]
    · have h' : lookupClient rest ip = some c := by simpa [lookupClient, hk] using h
      simp only [updateClientAt, if_neg hk, lookupClient, if_neg hk]
      exact ih h'

theorem lookupClient_updateClientAt_ne (cs : List (String × Client)) (ip ip' : String)
    (f : Client → Client) (h : ip' ≠ ip) :
    lookupClient (updateClientAt cs ip f) ip' = lookupClient cs ip' := by
  induction cs with
  | nil => simp [updateClientAt]
  | cons p rest ih =>
    obtain ⟨k, c0⟩ := p
    by_cases hk : k = ip
    · have hip : ¬ (ip = ip') := fun he => h he.symm
      simp [updateClientAt, hk, lookupClient, hip]
    · simp only [updateClientAt, if_neg hk, lookupClient]
      by_cases hk2 : k = ip'
      · simp [hk2]
      · simp only [if_neg hk2]
        exact ih

theorem updateClientAt_forall (cs : List (String × Client)) (ip : String)
    (f : Client → Client) (P : String × Client → Prop)
    (hall : ∀ p ∈ cs, P p) (hf : ∀ k c, P (k, c) → P (k, f c)) :
    ∀ p ∈ updateClientAt cs ip f, P p := by
  induction cs with
  | nil => simp [updateClientAt]
  | cons q rest ih =>
    obtain ⟨k, c0⟩ := q
    by_cases hk : k = ip
    · subst hk
      simp only [updateClientAt, if_pos rfl]
      intro p hp
      rcases List.mem_cons.mp hp with hhead | htail
      · subst hhead
        exact hf _ _ (hall _ (List.mem_cons_self _ _))
      · exact hall _ (List.mem_cons_of_mem _ htail)
    · simp only [updateClientAt, if_neg hk]
      intro p hp
      rcases List.mem_cons.mp hp with hhead | htail
      · subst hhead
        exact hall _ (List.mem_cons_self _ _)
      · exact ih (fun q hq => hall q (List.mem_cons_of_mem _ hq)) p htail

theorem getLimiter_snd_r (rl : RateLimiter) (ip : String) (now : ℚ) :
    (rl.getLimiter ip now).2.r = rl.r := by
  unfold RateLimiter.getLimiter
  cases lookupClient rl.clients ip <;> simp

theorem getLimiter_snd_burst (rl : RateLimiter) (ip : String) (now : ℚ) :
    (rl.getLimiter ip now).2.burst = rl.burst := by
  unfold RateLimiter.getLimiter
  cases lookupClient rl.clients ip <;> simp

theorem getLimiter_fst_none (rl : RateLimiter) (ip : String) (now : ℚ)
    (h : lookupClient rl.clients ip = none) :
    (rl.getLimiter ip now).1 = newLimiter rl.r rl.burst now := by
  unfold RateLimiter.getLimiter
  rw [h]

theorem getLimiter_fst_some (rl : RateLimiter) (ip : String) (now : ℚ) (c : Client)
    (h : lookupClient rl.clients ip = some c) :
    (rl.getLimiter ip now).1 = c.limiter := by
  unfold RateLimiter.getLimiter
  rw [h]

theorem getLimiter_clients_none (rl : RateLimiter) (ip : String) (now : ℚ)
    (h : lookupClient rl.clients ip = none) :
    (rl.getLimiter ip now).2.clients
      = (ip, ⟨newLimiter rl.r rl.burst now, now⟩) :: rl.clients := by
  unfold RateLimiter.getLimiter
  rw [h]

theorem getLimiter_clients_some (rl : RateLimiter) (ip : String) (now : ℚ) (c : Client)
    (h : lookupClient rl.clients ip = some c) :
    (rl.getLimiter ip now).2.clients
      = updateClientAt rl.clients ip (fun c0 => { c0 with lastSeen := now }) := by
  unfold RateLimiter.getLimiter
  rw [h]

theorem allowOn_fst_eq (rl : RateLimiter) (ip : String) (now : ℚ) :
    (rl.allowOn ip now).1 = ((rl.getLimiter ip now).1.allow now).1 := rfl

theorem allowOn_clients_eq (rl : RateLimiter) (ip : String) (now : ℚ) :
    (rl.allowOn ip now).2.clients
      = updateClientAt (rl.getLimiter ip now).2.clients ip
          (fun c0 => { c0 with limiter := ((rl.getLimiter ip now).1.allow now).2 }) := rfl

theorem allowOn_snd_r (rl : RateLimiter) (ip : String) (now : ℚ) :
    (rl.allowOn ip now).2.r = rl.r := getLimiter_snd_r rl ip now

theorem allowOn_snd_burst (rl : RateLimiter) (ip : String) (now : ℚ) :
    (rl.allowOn ip now).2.burst = rl.burst := getLimiter_snd_burst rl ip now

theorem allowOn_lookup_self (rl : RateLimiter) (ip : String) (now : ℚ) :
    lookupClient (rl.allowOn ip now).2.clients ip
      = some ⟨((rl.getLimiter ip now).1.allow now).2, now⟩ := by
  rw [allowOn_clients_eq]
  cases h : lookupClient rl.clients ip with
  | none =>
    rw [getLimiter_clients_none rl ip now h]
    simp [updateClientAt, lookupClient]
  | some c =>
    rw [getLimiter_clients_some rl ip now c h]
    have h2 := lookupClient_updateClientAt_self rl.clients ip
      (fun c0 => { c0 with lastSeen := now }) c h
    rw [lookupClient_updateClientAt_self _ _ _ _ h2]

theorem allowOn_lookup_ne (rl : RateLimiter) (ip ip' : String) (now : ℚ) (h : ip' ≠ ip) :
    lookupClient (rl.allowOn ip now).2.clients ip' = lookupClient rl.clients ip' := by
  rw [allowOn_clients_eq, lookupClient_updateClientAt_ne _ _ _ _ h]
  cases hl : lookupClient rl.clients ip with
  | none =>
    rw [getLimiter_clients_none rl ip now hl]
    simp only [lookupClient]
    rw [if_neg (fun he => h he.symm)]
  | some c =>
    rw [getLimiter_clients_some rl ip now c hl,
      lookupClient_updateClientAt_ne _ _ _ _ h]

/-- Facts about the bucket returned by `getLimiter` under the registry invariant. -/
theorem getLimiter_fst_inv (rl : RateLimiter) (ip : String) (now : ℚ) (hInv : rl.Inv) :
    0 ≤ (rl.getLimiter ip now).1.tokens
    ∧ (rl.getLimiter ip now).1.tokens ≤ (rl.burst : ℚ)
    ∧ (rl.getLimiter ip now).1.burst = rl.burst
    ∧ (rl.getLimiter ip now).1.limit = rl.r := by
  cases h : lookupClient rl.clients ip with
  | none =>
    rw [getLimiter_fst_none rl ip now h]
    exact ⟨Nat.cast_nonneg _, le_refl _, rfl, rfl⟩
  | some c =>
    rw [getLimiter_fst_some rl ip now c h]
    exact hInv.2 (ip, c) (lookupClient_mem _ _ _ h)

/-! ## Claims -/

/-- Claim C1, counterexample: with capacity 3 and refillRate 10 tokens per
second (the scenario parameters of the spec), a fresh limiter admits five
requests from the single identity 9.9.9.9 at times 0, 0, 0, 1/10 and 1/5
seconds. All five admissions fall in an interval of length 1/5, which is
shorter than capacity/refillRate = 3/10 seconds, yet 5 exceeds the claimed
bound capacity = 3. -/
theorem claim1_counterexample :
    countPass ((newRateLimiter 10 3).runMw
      [("9.9.9.9:1", 0), ("9.9.9.9:1", 0), ("9.9.9.9:1", 0),
       ("9.9.9.9:1", 1/10), ("9.9.9.9:1", 1/5)]).1 = 5
    ∧ (1 / 5 : ℚ) < 3 / 10 ∧ ¬ ((5 : ℕ) ≤ 3) := by
  refine ⟨?_, by norm_num, by norm_num⟩
  have h1 : clientIP "9.9.9.9:1" = "9.9.9.9" := by decide
  norm_num [RateLimiter.runMw, RateLimiter.middlewareStep, RateLimiter.allowOn,
    RateLimiter.getLimiter, newRateLimiter, lookupClient, updateClientAt,
    newLimiter, Limiter.allow, Limiter.advance, min_def, h1, countPass]

/-- Claim C1, amended: for every client identity, starting from a freshly
created (full) bucket, at most capacity + T * refillRate requests are
admitted within any interval of length T (so for intervals shorter than
capacity/refillRate the count can approach twice the capacity, not
capacity); every request the limiter rejects receives HTTP 429 with the
JSON body message "too many requests". -/
theorem claim1_theorem :
    (∀ (r : ℚ) (b : ℕ) (t0 T : ℚ) (ts : List ℚ), 0 ≤ r → 0 ≤ T →
      List.Chain' (· ≤ ·) (t0 :: ts) → (∀ t ∈ ts, t ≤ t0 + T) →
      (((newLimiter r b t0).runCount ts).1 : ℚ) ≤ (b : ℚ) + T * r)
    ∧ (∀ (rl : RateLimiter) (addr : String) (now : ℚ),
        (rl.middlewareStep addr now).1 ≠ MwResult.pass →
        (rl.middlewareStep addr now).1 = MwResult.reject 429 ⟨"too many requests"⟩) := by
  constructor
  · intro r b t0 T ts hr hT hchain hhi
    have hb := Limiter.runCount_bound ts (newLimiter r b t0) (t0 + T) hr hchain hhi
      (by show t0 ≤ t0 + T; linarith)
    have hnn := Limiter.runCount_tokens_nonneg ts (newLimiter r b t0)
      (by show (0 : ℚ) ≤ (b : ℚ); positivity) hr
    simp only [newLimiter] at hb hnn ⊢
    have hTr : (t0 + T - t0) * r = T * r := by ring
    rw [hTr] at hb
    linarith
  · intro rl addr now h
    by_cases hb : (rl.allowOn (clientIP addr) now).1
    · exact absurd (by simp [RateLimiter.middlewareStep, hb]) h
    · simp [RateLimiter.middlewareStep, hb]

/-- Claim C1 witness: the amended bound applied to the concrete run with
capacity 3, rate 10 and interval length 1/5 gives the (tight) bound
5 = 3 + (1/5) * 10 on the number of admissions. -/
theorem claim1_witness :
    (((newLimiter 10 3 0).runCount [0, 0, 0, 1/10, 1/5]).1 : ℚ)
      ≤ ((3 : ℕ) : ℚ) + (1/5) * 10 :=
  claim1_theorem.1 10 3 0 (1/5) [0, 0, 0, 1/10, 1/5] (by norm_num) (by norm_num)
    (by norm_num [List.chain'_cons, List.chain'_singleton]) (by norm_num)

/-- Claim C2: every admission check follows the token-bucket step. Under the
registry invariant (rate nonnegative, every bucket holding between 0 and
capacity tokens with the shared configuration): the invariant is preserved
by `allowOn`; a missing identity gets a bucket lazily created seeded full
(available = capacity); the request is allowed exactly when the refilled
token count `advance` (available increased by elapsed·refillRate, capped at
capacity) is at least 1; and the registry entry after the call holds
`advance` minus exactly 1 when allowed (minus 0 when denied), a value again
between 0 and capacity. -/
theorem claim2_theorem (rl : RateLimiter) (ip : String) (now : ℚ) (hInv : rl.Inv) :
    (rl.allowOn ip now).2.Inv
    ∧ (lookupClient rl.clients ip = none →
        (rl.getLimiter ip now).1 = newLimiter rl.r rl.burst now)
    ∧ ((rl.allowOn ip now).1 = true ↔ 1 ≤ (rl.getLimiter ip now).1.advance now)
    ∧ (∃ c', lookupClient (rl.allowOn ip now).2.clients ip = some c'
        ∧ c'.limiter.tokens
            = (rl.getLimiter ip now).1.advance now
              - (if (rl.allowOn ip now).1 then 1 else 0)
        ∧ 0 ≤ c'.limiter.tokens ∧ c'.limiter.tokens ≤ (rl.burst : ℚ)) := by
  obtain ⟨hr, hall⟩ := hInv
  obtain ⟨ht0, ht1, hburst, hlimit⟩ := getLimiter_fst_inv rl ip now ⟨hr, hall⟩
  have ha0 : 0 ≤ ((rl.getLimiter ip now).1.allow now).2.tokens :=
    (rl.getLimiter ip now).1.allow_tokens_nonneg now ht0 (by rw [hlimit]; exact hr)
  have ha1 : ((rl.getLimiter ip now).1.allow now).2.tokens ≤ (rl.burst : ℚ) := by
    have h := (rl.getLimiter ip now).1.allow_tokens_le_burst now
    rw [hburst] at h
    exact h
  have haB : ((rl.getLimiter ip now).1.allow now).2.burst = rl.burst := by
    rw [(rl.getLimiter ip now).1.allow_snd_burst now, hburst]
  have haL : ((rl.getLimiter ip now).1.allow now).2.limit = rl.r := by
    rw [(rl.getLimiter ip now).1.allow_snd_limit now, hlimit]
  refine ⟨?_, fun h => getLimiter_fst_none rl ip now h, ?_, ?_⟩
  · unfold RateLimiter.Inv
    rw [allowOn_snd_r, allowOn_snd_burst]
    refine ⟨hr, ?_⟩
    rw [allowOn_clients_eq]
    apply updateClientAt_forall
    · cases h : lookupClient rl.clients ip with
      | none =>
        rw [getLimiter_clients_none rl ip now h]
        intro p hp
        rcases List.mem_cons.mp hp with hhead | htail
        · subst hhead
          exact ⟨Nat.cast_nonneg _, le_refl _, rfl, rfl⟩
        · exact hall p htail
      | some c =>
        rw [getLimiter_clients_some rl ip now c h]
        apply updateClientAt_forall
        · exact hall
        · intro k c0 hP
          exact hP
    · intro k c0 _
      exact ⟨ha0, ha1, haB, haL⟩
  · rw [allowOn_fst_eq]
    exact (rl.getLimiter ip now).1.allow_fst_iff now
  · refine ⟨⟨((rl.getLimiter ip now).1.allow now).2, now⟩, allowOn_lookup_self rl ip now, ?_, ha0, ha1⟩
    rw [allowOn_fst_eq]
    exact (rl.getLimiter ip now).1.allow_snd_tokens now

/-- Claim C2 witness: the invariant holds after an admission on a fresh
limiter with rate 1 and burst 5 (the configured defaults). -/
theorem claim2_witness : ((newRateLimiter 1 5).allowOn "1.2.3.4" 0).2.Inv :=
  (claim2_theorem (newRateLimiter 1 5) "1.2.3.4" 0
    ⟨by norm_num [newRateLimiter], fun p hp => absurd hp (List.not_mem_nil p)⟩).1

/-- Claim C3: for every subject id, verifying a token immediately after
issuing it succeeds and returns claims whose subject id equals the issued
id, and whose expiry (issuance time plus 24 hours, not configurable per
call) is strictly in the future at issuance time. -/
theorem claim3_theorem (s : JWTService) (id now : ℤ) :
    ∃ c, s.validateJWT (s.generateJWT id now) now = some c
      ∧ c.userID = id ∧ c.exp = now + 24 * 3600 ∧ now < c.exp := by
  refine ⟨⟨id, now + 24 * 3600⟩, ?_, rfl, rfl, by show now < now + 24 * 3600; omega⟩
  have hc : s.key = s.key ∧ now < (⟨id, now + 24 * 3600⟩ : JWTClaims).exp :=
    ⟨rfl, by show now < now + 24 * 3600; omega⟩
  show (if s.key = s.key ∧ now < (⟨id, now + 24 * 3600⟩ : JWTClaims).exp
      then some (⟨id, now + 24 * 3600⟩ : JWTClaims) else none)
    = some (⟨id, now + 24 * 3600⟩ : JWTClaims)
  rw [if_pos hc]

/-- Claim C4: verification succeeds exactly on a token carrying a valid
signature under the service key and an unexpired timestamp; hence it fails
(with the single undifferentiated error, here `none`) exactly for malformed
encodings (the empty input included), signature mismatches (any token
signed under a different key, regardless of claim validity), and expired
timestamps, and no revocation list is ever consulted. -/
theorem claim4_theorem (s : JWTService) (tok : TokenStr) (now : ℤ) (c : JWTClaims) :
    s.validateJWT tok now = some c ↔ (tok = TokenStr.encoded c s.key ∧ now < c.exp) := by
  constructor
  · intro h
    cases tok with
    | garbled r => simp [JWTService.validateJWT] at h
    | encoded c0 k =>
      simp only [JWTService.validateJWT] at h
      by_cases hc : k = s.key ∧ now < c0.exp
      · rw [if_pos hc] at h
        have hcc : c0 = c := by simpa using h
        subst hcc
        exact ⟨by rw [hc.1], hc.2⟩
      · rw [if_neg hc] at h
        exact absurd h (by simp)
  · rintro ⟨rfl, hexp⟩
    simp [JWTService.validateJWT, hexp]

/-- Claim C5: the auth gate rejects with 401 when the Authorization header
is absent (the empty string, as returned by Header.Get), when it is not of
the "Bearer token" shape, or when token verification fails; otherwise it
attaches the verified subject id to the request context, from which
GetUserIDFromContext retrieves exactly that id; every failure returns
immediately. -/
theorem claim5_theorem (validate : String → Option JWTClaims) (header : String) :
    (header = "" →
      authMiddleware validate header = AuthOutcome.reject 401 ⟨"missing token"⟩)
    ∧ (header ≠ "" → hasBearer header = false →
      authMiddleware validate header = AuthOutcome.reject 401 ⟨"invalid token format"⟩)
    ∧ (hasBearer header = true → validate (header.drop 7) = none →
      authMiddleware validate header = AuthOutcome.reject 401 ⟨"invalid token"⟩)
    ∧ (∀ c, hasBearer header = true → validate (header.drop 7) = some c →
      authMiddleware validate header = AuthOutcome.proceed (some c.userID)
      ∧ getUserIDFromContext (withUserID none c.userID) = (c.userID, true)) := by
  refine ⟨?_, ?_, ?_, ?_⟩
  · intro h
    simp [authMiddleware, h]
  · intro h hpre
    simp [authMiddleware, h, hpre]
  · intro hpre hv
    have hne : header ≠ "" := by
      intro he
      rw [he] at hpre
      exact absurd hpre (by decide)
    simp [authMiddleware, hne, hpre, hv]
  · intro c hpre hv
    have hne : header ≠ "" := by
      intro he
      rw [he] at hpre
      exact absurd hpre (by decide)
    refine ⟨?_, rfl⟩
    simp [authMiddleware, hne, hpre, hv, withUserID]

/-- Claim C5 witness: concrete requests exercising all four branches of the
auth gate, with a verifier accepting exactly the token "tok" as subject 7. -/
theorem claim5_witness :
    (authMiddleware (fun t => if t = "tok" then some ⟨7, 1⟩ else none) "Bearer tok"
        = AuthOutcome.proceed (some 7)
      ∧ getUserIDFromContext (withUserID none 7) = (7, true))
    ∧ authMiddleware (fun t => if t = "tok" then some ⟨7, 1⟩ else none) ""
        = AuthOutcome.reject 401 ⟨"missing token"⟩
    ∧ authMiddleware (fun t => if t = "tok" then some ⟨7, 1⟩ else none) "Token abc"
        = AuthOutcome.reject 401 ⟨"invalid token format"⟩
    ∧ authMiddleware (fun t => if t = "tok" then some ⟨7, 1⟩ else none) "Bearer bad"
        = AuthOutcome.reject 401 ⟨"invalid token"⟩ := by
  refine ⟨?_, ?_, ?_, ?_⟩
  · exact (claim5_theorem (fun t => if t = "tok" then some ⟨7, 1⟩ else none)
      "Bearer tok").2.2.2 ⟨7, 1⟩ (by decide) (by decide)
  · exact (claim5_theorem (fun t => if t = "tok" then some ⟨7, 1⟩ else none)
      "").1 rfl
  · exact (claim5_theorem (fun t => if t = "tok" then some ⟨7, 1⟩ else none)
      "Token abc").2.1 (by decide) (by decide)
  · exact (claim5_theorem (fun t => if t = "tok" then some ⟨7, 1⟩ else none)
      "Bearer bad").2.2.1 (by decide) (by decide)

/-- Claim C6: admission checks for one identity never change the registry
entry of any other identity; the admission outcome for an identity is a
function of the own entry of that identity (and the shared configuration);
and in the concrete scenario with capacity 3 and rate 10/s, three immediate
requests from A succeed, a fourth fails, and a concurrent first request
from B still succeeds. -/
theorem claim6_theorem :
    (∀ (rl : RateLimiter) (ip ip' : String) (now : ℚ), ip' ≠ ip →
      lookupClient (rl.allowOn ip now).2.clients ip' = lookupClient rl.clients ip')
    ∧ (∀ (rl1 rl2 : RateLimiter) (ip : String) (now : ℚ),
        rl1.r = rl2.r → rl1.burst = rl2.burst →
        lookupClient rl1.clients ip = lookupClient rl2.clients ip →
        (rl1.allowOn ip now).1 = (rl2.allowOn ip now).1)
    ∧ ((newRateLimiter 10 3).runMw
        [("1.1.1.1:1", 0), ("1.1.1.1:1", 0), ("1.1.1.1:1", 0), ("1.1.1.1:1", 0),
         ("2.2.2.2:2", 0)]).1
      = [MwResult.pass, MwResult.pass, MwResult.pass,
         MwResult.reject 429 ⟨"too many requests"⟩, MwResult.pass] := by
  refine ⟨?_, ?_, ?_⟩
  · intro rl ip ip' now h
    exact allowOn_lookup_ne rl ip ip' now h
  · intro rl1 rl2 ip now hr hb hl
    rw [allowOn_fst_eq, allowOn_fst_eq]
    cases h1 : lookupClient rl1.clients ip with
    | none =>
      have h2 : lookupClient rl2.clients ip = none := by rw [← hl]; exact h1
      rw [getLimiter_fst_none rl1 ip now h1, getLimiter_fst_none rl2 ip now h2, hr, hb]
    | some c =>
      have h2 : lookupClient rl2.clients ip = some c := by rw [← hl]; exact h1
      rw [getLimiter_fst_some rl1 ip now c h1, getLimiter_fst_some rl2 ip now c h2]
  · have h1 : clientIP "1.1.1.1:1" = "1.1.1.1" := by decide
    have h2 : clientIP "2.2.2.2:2" = "2.2.2.2" := by decide
    have h3 : ("1.1.1.1" : String) ≠ "2.2.2.2" := by decide
    norm_num [RateLimiter.runMw, RateLimiter.middlewareStep, RateLimiter.allowOn,
      RateLimiter.getLimiter, newRateLimiter, lookupClient, updateClientAt,
      newLimiter, Limiter.allow, Limiter.advance, min_def, h1, h2, h3]

/-- Claim C6 witness: an admission for identity a leaves the (absent) entry
of identity b untouched, and the outcome for a fresh identity is the same
across two registries agreeing on that identity. -/
theorem claim6_witness :
    lookupClient ((newRateLimiter 1 5).allowOn "a" 0).2.clients "b"
      = lookupClient (newRateLimiter 1 5).clients "b"
    ∧ ((newRateLimiter 1 5).allowOn "c" 0).1 = ((newRateLimiter 1 5).allowOn "c" 0).1 :=
  ⟨claim6_theorem.1 (newRateLimiter 1 5) "a" "b" 0 (by decide),
   claim6_theorem.2.1 (newRateLimiter 1 5) (newRateLimiter 1 5) "c" 0 rfl rfl rfl⟩

theorem lookupClient_filter_none (cs : List (String × Client)) (ip : String)
    (f : String × Client → Bool) (h : ∀ c, (ip, c) ∈ cs → f (ip, c) = false) :
    lookupClient (cs.filter f) ip = none := by
  induction cs with
  | nil => rfl
  | cons p rest ih =>
    obtain ⟨k, c0⟩ := p
    have htail : ∀ c, (ip, c) ∈ rest → f (ip, c) = false :=
      fun c hc => h c (List.mem_cons_of_mem _ hc)
    by_cases hk : k = ip
    · have hf : f (k, c0) = false := by
        subst hk
        exact h c0 (List.mem_cons_self _ _)
      rw [List.filter_cons, hf]
      simpa using ih htail
    · rw [List.filter_cons]
      by_cases hf : f (k, c0) = true
      · rw [hf]
        simp only [if_true]
        simp only [lookupClient, if_neg hk]
        exact ih htail
      · rw [Bool.not_eq_true] at hf
        rw [hf]
        simpa using ih htail

/-- Claim C7: one sweep of the background reclaimer removes exactly the
identity entries whose last activity lies more than the 3-minute idle
threshold in the past (the `idleThreshold` and the one-minute
`cleanupInterval` are fixed constants of the limiter); and an identity all
of whose entries were swept receives a fresh full bucket
(available = capacity) on its next request, never a partially refilled
one. -/
theorem claim7_theorem (rl : RateLimiter) (now now' : ℚ) :
    (∀ ip c, (ip, c) ∈ (rl.cleanup now).clients ↔
      ((ip, c) ∈ rl.clients ∧ ¬(now - c.lastSeen > idleThreshold)))
    ∧ (∀ ip, (∀ c, (ip, c) ∈ rl.clients → now - c.lastSeen > idleThreshold) →
      ((rl.cleanup now).getLimiter ip now').1 = newLimiter rl.r rl.burst now') := by
  constructor
  · intro ip c
    simp [RateLimiter.cleanup, List.mem_filter]
  · intro ip hid
    have hnone : lookupClient (rl.cleanup now).clients ip = none := by
      apply lookupClient_filter_none
      intro c hc
      simp [hid c hc]
    exact getLimiter_fst_none _ ip now' hnone

/-- Claim C7 witness: a registry holding one identity idle for 200 seconds
(beyond the 180-second threshold) hands that identity a fresh full bucket
after the sweep. -/
theorem claim7_witness :
    (((RateLimiter.mk [("a", ⟨newLimiter 1 5 0, 0⟩)] 1 5).cleanup 200).getLimiter "a" 200).1
      = newLimiter 1 5 200 := by
  apply (claim7_theorem (RateLimiter.mk [("a", ⟨newLimiter 1 5 0, 0⟩)] 1 5) 200 200).2
  intro c hc
  have hce : c = ⟨newLimiter 1 5 0, 0⟩ := by simpa using hc
  subst hce
  show (200 : ℚ) - 0 > idleThreshold
  norm_num [idleThreshold]

/-- Claim C8: for a well-formed login request, the failure response for an
unknown user (lookup error) and the one for a wrong password are the
identical 401 response with the generic message "invalid credentials", so a
client cannot distinguish the two cases. -/
theorem claim8_theorem (findByEmail : String → Option User) (jwt : JWTService)
    (now : ℤ) (decodeErr : String) (req : LoginRequest)
    (hmail : req.email ≠ "") (hpw : req.password ≠ "") :
    (findByEmail req.email = none →
      loginHandler findByEmail jwt now decodeErr (some req)
        = LoginResult.fail 401 ⟨"invalid credentials"⟩)
    ∧ (∀ u, findByEmail req.email = some u →
        checkPassword req.password u.passwordHash = false →
        loginHandler findByEmail jwt now decodeErr (some req)
          = LoginResult.fail 401 ⟨"invalid credentials"⟩) := by
  constructor
  · intro h
    simp [loginHandler, hmail, hpw, h]
  · intro u h hcp
    simp [loginHandler, hmail, hpw, h, hcp]

/-- Claim C8 witness: the concrete unknown-user and wrong-password runs both
answer 401 "invalid credentials". -/
theorem claim8_witness :
    loginHandler (fun _ => none) ⟨"k"⟩ 0 "" (some ⟨"a@b.c", "pw"⟩)
      = LoginResult.fail 401 ⟨"invalid credentials"⟩
    ∧ loginHandler (fun _ => some ⟨1, hashPassword "right" 0⟩) ⟨"k"⟩ 0 ""
        (some ⟨"a@b.c", "pw"⟩)
      = LoginResult.fail 401 ⟨"invalid credentials"⟩ := by
  constructor
  · exact (claim8_theorem (fun _ => none) ⟨"k"⟩ 0 "" ⟨"a@b.c", "pw"⟩
      (by decide) (by decide)).1 rfl
  · exact (claim8_theorem (fun _ => some ⟨1, hashPassword "right" 0⟩) ⟨"k"⟩ 0 ""
      ⟨"a@b.c", "pw"⟩ (by decide) (by decide)).2 ⟨1, hashPassword "right" 0⟩ rfl (by decide)

/-- Claim C9 (the hasher is modelled from the spec, its implementation not
being among the sources): hashing the same plaintext under two distinct
fresh salts yields distinct outputs, verifying a plaintext against its own
hash always succeeds, and verifying any other plaintext against that hash
always fails. -/
theorem claim9_theorem (p w : String) (s1 s2 salt : ℕ) :
    (s1 ≠ s2 → hashPassword p s1 ≠ hashPassword p s2)
    ∧ checkPassword p (hashPassword p salt) = true
    ∧ (w ≠ p → checkPassword w (hashPassword p salt) = false) := by
  refine ⟨?_, ?_, ?_⟩
  · intro h hc
    exact h (congrArg HashString.salt hc)
  · simp [checkPassword, hashPassword]
  · intro h
    have hne : ¬ ((p, salt) = (w, salt)) := fun he => h (congrArg Prod.fst he).symm
    simp [checkPassword, hashPassword, hne]

/-- Claim C9 witness: concrete hashes of "hunter2" under salts 0 and 1. -/
theorem claim9_witness :
    (hashPassword "hunter2" 0 ≠ hashPassword "hunter2" 1)
    ∧ checkPassword "hunter2" (hashPassword "hunter2" 0) = true
    ∧ checkPassword "hunter3" (hashPassword "hunter2" 0) = false := by
  obtain ⟨h1, h2, h3⟩ := claim9_theorem "hunter2" "hunter3" 0 1 0
  exact ⟨h1 (by decide), h2, h3 (by decide)⟩

/-- Claim C10: when RemoteAddr does not parse as host:port the middleware
ignores the error and keys the bucket registry by the empty string, so all
malformed-address requests share a single bucket (two such requests are
processed identically from any registry state); in general the identity is
exactly the host part of RemoteAddr with the port discarded. -/
theorem claim10_theorem :
    (∀ addr, splitHostPort addr = none → clientIP addr = "")
    ∧ (∀ addr h p, splitHostPort addr = some (h, p) → clientIP addr = h)
    ∧ (∀ (rl : RateLimiter) (a b : String) (now : ℚ),
        splitHostPort a = none → splitHostPort b = none →
        rl.middlewareStep a now = rl.middlewareStep b now) := by
  refine ⟨?_, ?_, ?_⟩
  · intro addr h
    simp [clientIP, h]
  · intro addr h p hs
    simp [clientIP, hs]
  · intro rl a b now ha hb
    have h1 : clientIP a = clientIP b := by simp [clientIP, ha, hb]
    unfold RateLimiter.middlewareStep
    rw [h1]

/-- Claim C10 witness: "localhost" (no port) is keyed as the empty string
and shares its bucket with the equally malformed "127.0.0.1", while
"1.2.3.4:80" is keyed by its host part. -/
theorem claim10_witness :
    clientIP "localhost" = ""
    ∧ clientIP "1.2.3.4:80" = "1.2.3.4"
    ∧ (newRateLimiter 1 5).middlewareStep "localhost" 0
        = (newRateLimiter 1 5).middlewareStep "127.0.0.1" 0 :=
  ⟨claim10_theorem.1 "localhost" (by decide),
   claim10_theorem.2.1 "1.2.3.4:80" "1.2.3.4" "80" (by decide),
   claim10_theorem.2.2 (newRateLimiter 1 5) "localhost" "127.0.0.1" 0
     (by decide) (by decide)⟩

end Accounting
